import Mathlib

/-!
Verification development for the webgpu-experiments cube demo
(src/apps/cube/main.cpp).

The application code in src/apps/cube/main.cpp is the authority for the
per-frame state machine (drag bookkeeping, slider state, buffer writes) and
the static geometry data.  The vector/quaternion math layer (math.hpp:
sph2cart, betweenZ, rotation, lookAt, perspective, radians) and the
camera/orbit-control component live in headers and the second demo variant
that are not part of the sources here; those are modelled from the spec
(each such definition carries a doc comment starting with
"Modelled from the spec: ...").

Floating point (C++ float) is idealised as the real numbers.
-/

open Real

namespace CubeDemo

/-- 3-component vector, the Vec3 of the math layer. -/
@[ext]
structure Vec3 where
  x : ℝ
  y : ℝ
  z : ℝ

namespace Vec3

def dot (a b : Vec3) : ℝ := a.x * b.x + a.y * b.y + a.z * b.z

def cross (a b : Vec3) : Vec3 :=
  ⟨a.y * b.z - a.z * b.y, a.z * b.x - a.x * b.z, a.x * b.y - a.y * b.x⟩

def normSq (a : Vec3) : ℝ := a.x * a.x + a.y * a.y + a.z * a.z

def add (a b : Vec3) : Vec3 := ⟨a.x + b.x, a.y + b.y, a.z + b.z⟩

def sub (a b : Vec3) : Vec3 := ⟨a.x - b.x, a.y - b.y, a.z - b.z⟩

def neg (a : Vec3) : Vec3 := ⟨-a.x, -a.y, -a.z⟩

def smul (c : ℝ) (a : Vec3) : Vec3 := ⟨c * a.x, c * a.y, c * a.z⟩

noncomputable def normalize (a : Vec3) : Vec3 :=
  smul (1 / Real.sqrt a.normSq) a

end Vec3

/-- Quaternion with scalar part w and vector part (x, y, z); composes by
standard quaternion multiplication (spec section 3). -/
@[ext]
structure Quat where
  w : ℝ
  x : ℝ
  y : ℝ
  z : ℝ

namespace Quat

def one : Quat := ⟨1, 0, 0, 0⟩

def mul (p q : Quat) : Quat :=
  ⟨p.w * q.w - p.x * q.x - p.y * q.y - p.z * q.z,
   p.w * q.x + p.x * q.w + p.y * q.z - p.z * q.y,
   p.w * q.y - p.x * q.z + p.y * q.w + p.z * q.x,
   p.w * q.z + p.x * q.y - p.y * q.x + p.z * q.w⟩

def normSq (q : Quat) : ℝ := q.w * q.w + q.x * q.x + q.y * q.y + q.z * q.z

def smul (c : ℝ) (q : Quat) : Quat := ⟨c * q.w, c * q.x, c * q.y, c * q.z⟩

noncomputable def normalize (q : Quat) : Quat :=
  smul (1 / Real.sqrt q.normSq) q

end Quat

/-- 4x4 matrix, field mRC is the entry at row R, column C.  The C++ Mat44 is
a flat array of 16 floats in column-major order; the fields here are the
mathematical entries, independent of the storage order. -/
@[ext]
structure Mat4 where
  m00 : ℝ
  m01 : ℝ
  m02 : ℝ
  m03 : ℝ
  m10 : ℝ
  m11 : ℝ
  m12 : ℝ
  m13 : ℝ
  m20 : ℝ
  m21 : ℝ
  m22 : ℝ
  m23 : ℝ
  m30 : ℝ
  m31 : ℝ
  m32 : ℝ
  m33 : ℝ

namespace Mat4

/-- Apply the affine part of the matrix to a point (homogeneous w = 1). -/
def applyPoint (m : Mat4) (v : Vec3) : Vec3 :=
  ⟨m.m00 * v.x + m.m01 * v.y + m.m02 * v.z + m.m03,
   m.m10 * v.x + m.m11 * v.y + m.m12 * v.z + m.m13,
   m.m20 * v.x + m.m21 * v.y + m.m22 * v.z + m.m23⟩

/-- Interpret a Mat4 as a Mathlib matrix (row index first). -/
def toMatrix4 (m : Mat4) : Matrix (Fin 4) (Fin 4) ℝ :=
  Matrix.of
    ![![m.m00, m.m01, m.m02, m.m03],
      ![m.m10, m.m11, m.m12, m.m13],
      ![m.m20, m.m21, m.m22, m.m23],
      ![m.m30, m.m31, m.m32, m.m33]]

end Mat4

/-- Modelled from the spec: sphericalToCartesian(phi, theta, radius) with
x = r cos(theta) cos(phi), y = r sin(theta), z = r cos(theta) sin(phi)
(spec section 4.1); implements math.hpp's sph2cart, which is not among the
sources. -/
noncomputable def sphericalToCartesian (phi theta r : ℝ) : Vec3 :=
  ⟨r * Real.cos theta * Real.cos phi, r * Real.sin theta,
   r * Real.cos theta * Real.sin phi⟩

/-- The code's name for sphericalToCartesian (math.hpp sph2cart). -/
noncomputable def sph2cart (phi theta r : ℝ) : Vec3 :=
  sphericalToCartesian phi theta r

/-- Modelled from the spec: a deterministically chosen vector orthogonal to
v, picked from the smallest-magnitude basis component (spec section 4.1,
anti-parallel edge case of rotationBetween).  Nonzero whenever v is nonzero. -/
noncomputable def orthogonalTo (v : Vec3) : Vec3 :=
  if |v.x| ≤ |v.y| ∧ |v.x| ≤ |v.z| then ⟨0, -v.z, v.y⟩
  else if |v.y| ≤ |v.z| then ⟨v.z, 0, -v.x⟩
  else ⟨-v.y, v.x, 0⟩

/-- Modelled from the spec: rotationBetween(from, to), the shortest-arc
rotation mapping unit vector from onto unit vector to; when the vectors are
anti-parallel (dot = -1) the axis is a deterministic vector orthogonal to
from, avoiding the undefined axis (spec section 4.1); implements math.hpp's
rotation-between, which is not among the sources. -/
noncomputable def rotationBetween (vf vt : Vec3) : Quat :=
  if vf.dot vt = -1 then
    Quat.normalize ⟨0, (orthogonalTo vf).x, (orthogonalTo vf).y, (orthogonalTo vf).z⟩
  else
    Quat.normalize ⟨1 + vf.dot vt, (vf.cross vt).x, (vf.cross vt).y, (vf.cross vt).z⟩

/-- Modelled from the spec: betweenZ(v) is the shortest-arc rotation taking
the canonical forward axis Z onto v (math.hpp betweenZ, not among the
sources; spec section 4.4 calls it rotationBetween(canonicalAxis, ...)). -/
noncomputable def betweenZ (v : Vec3) : Quat := rotationBetween ⟨0, 0, 1⟩ v

/-- Modelled from the spec: toMatrix(q), the standard
unit-quaternion-to-rotation-matrix formula with defensive normalization
(spec section 4.1).  The entries of the standard formula are quadratic in
the quaternion components, so applying it to q normalized equals dividing
the homogeneous quadratic form by the squared norm of q; implements
math.hpp's quaternion-to-matrix conversion, which is not among the
sources. -/
noncomputable def toMatrix (q : Quat) : Mat4 :=
  { m00 := (q.w ^ 2 + q.x ^ 2 - q.y ^ 2 - q.z ^ 2) / q.normSq
    m01 := 2 * (q.x * q.y - q.w * q.z) / q.normSq
    m02 := 2 * (q.x * q.z + q.w * q.y) / q.normSq
    m03 := 0
    m10 := 2 * (q.x * q.y + q.w * q.z) / q.normSq
    m11 := (q.w ^ 2 - q.x ^ 2 + q.y ^ 2 - q.z ^ 2) / q.normSq
    m12 := 2 * (q.y * q.z - q.w * q.x) / q.normSq
    m13 := 0
    m20 := 2 * (q.x * q.z - q.w * q.y) / q.normSq
    m21 := 2 * (q.y * q.z + q.w * q.x) / q.normSq
    m22 := (q.w ^ 2 - q.x ^ 2 - q.y ^ 2 + q.z ^ 2) / q.normSq
    m23 := 0
    m30 := 0
    m31 := 0
    m32 := 0
    m33 := 1 }

/-- The code's name for the quaternion-to-matrix conversion
(math.hpp rotation(m, q), called at main.cpp line 436). -/
noncomputable def rotation (q : Quat) : Mat4 := toMatrix q

/-- Modelled from the spec: radians(degrees) conversion (math.hpp radians,
not among the sources). -/
noncomputable def radians (d : ℝ) : ℝ := d * Real.pi / 180

/-- Modelled from the spec: lookAt(eye, target, up) building a right-handed
view matrix with forward = normalize(target - eye) (spec section 4.1);
implements math.hpp's lookAt, which is not among the sources.  The camera
looks down the negative z axis of view space. -/
noncomputable def lookAt (eye center up : Vec3) : Mat4 :=
  let f := Vec3.normalize (Vec3.sub center eye)
  let s := Vec3.normalize (f.cross up)
  let u := s.cross f
  { m00 := s.x, m01 := s.y, m02 := s.z, m03 := -(s.dot eye)
    m10 := u.x, m11 := u.y, m12 := u.z, m13 := -(u.dot eye)
    m20 := -f.x, m21 := -f.y, m22 := -f.z, m23 := f.dot eye
    m30 := 0, m31 := 0, m32 := 0, m33 := 1 }

/-- Modelled from the spec: perspective(fov, aspect, near, far), a
right-handed projection mapping depth to the 0..1 clip-space convention of
WebGPU (spec section 4.1); implements math.hpp's perspective, which is not
among the sources. -/
noncomputable def perspective (fov aspect near far : ℝ) : Mat4 :=
  let t := Real.tan (fov / 2)
  { m00 := 1 / (aspect * t), m01 := 0, m02 := 0, m03 := 0
    m10 := 0, m11 := 1 / t, m12 := 0, m13 := 0
    m20 := 0, m21 := 0, m22 := far / (near - far), m23 := near * far / (near - far)
    m30 := 0, m31 := 0, m32 := -1, m33 := 0 }

/-- 2D point with the x/y fields of ImVec2, used for mouse positions
(main.cpp state.downPos, state.delta); coordinates idealised as rationals. -/
@[ext]
structure Vec2 where
  x : ℚ
  y : ℚ
deriving DecidableEq

/-- The GPU buffers the application writes (main.cpp lines 175, 292-293,
414, 437). -/
inductive BufferId where
  | camera
  | model
  | gnomonVertex
  | cubeVertex
  | cubeIndex
deriving DecidableEq

/-- GnomonData vertices (main.cpp lines 15-24): interleaved position and
color, 6 floats per vertex, for scale s. -/
def gnomonVerticesOf (s : ℝ) : List ℝ :=
  [0, 0, 0, 1, 0, 0,
   s, 0, 0, 1, 0, 0,
   0, 0, 0, 0, 1, 0,
   0, s, 0, 0, 1, 0,
   0, 0, 0, 0, 0, 1,
   0, 0, s, 0, 0, 1]

/-- The gnomon vertex data at the default scale s = 1 (main.cpp line 15). -/
def gnomonVertices : List ℝ := gnomonVerticesOf 1

/-- CubeData indices (main.cpp lines 30-43). -/
def cubeIndices : List ℕ :=
  [0, 1, 2, 0, 2, 3,
   4, 5, 6, 4, 6, 7,
   8, 9, 10, 8, 10, 11,
   12, 13, 14, 12, 14, 15,
   16, 17, 18, 16, 18, 19,
   20, 21, 22, 20, 22, 23]

/-- CubeData vertices (main.cpp lines 46-71): interleaved position and
normal, 6 floats per vertex, for half-extent s. -/
def cubeVerticesOf (s : ℝ) : List ℝ :=
  [s, s, -s, 1, 0, 0,
   s, s, s, 1, 0, 0,
   s, -s, s, 1, 0, 0,
   s, -s, -s, 1, 0, 0,
   -s, s, s, -1, 0, 0,
   -s, s, -s, -1, 0, 0,
   -s, -s, -s, -1, 0, 0,
   -s, -s, s, -1, 0, 0,
   -s, s, s, 0, 1, 0,
   s, s, s, 0, 1, 0,
   s, s, -s, 0, 1, 0,
   -s, s, -s, 0, 1, 0,
   -s, -s, -s, 0, -1, 0,
   s, -s, -s, 0, -1, 0,
   s, -s, s, 0, -1, 0,
   -s, -s, s, 0, -1, 0,
   s, s, s, 0, 0, 1,
   -s, s, s, 0, 0, 1,
   -s, -s, s, 0, 0, 1,
   s, -s, s, 0, 0, 1,
   -s, s, -s, 0, 0, -1,
   s, s, -s, 0, 0, -1,
   s, -s, -s, 0, 0, -1,
   -s, -s, -s, 0, 0, -1]

/-- The cube vertex data at the default half-extent s = 0.5
(main.cpp line 45). -/
noncomputable def cubeVertices : List ℝ := cubeVerticesOf (1 / 2)

/-- Interleaved vertex layout: 6 floats per vertex (two Float32x3
attributes, main.cpp lines 130-133 and 245-248). -/
def floatsPerVertex : ℕ := 6

/-- The gnomon draw count: geom.count = 6 vertices with LineList topology
(main.cpp lines 121 and 137). -/
def gnomonDrawCount : ℕ := 6

/-- The cube draw count: geom.count = indices.size() (main.cpp line 253). -/
def cubeDrawCount : ℕ := cubeIndices.length

/-- Number of line primitives a LineList draw of n vertices produces
(WebGPU line-list semantics of the external renderer: consecutive vertex
pairs). -/
def lineListLineCount (n : ℕ) : ℕ := n / 2

/-- Number of line primitives the gnomon draw call produces. -/
def gnomonLineCount : ℕ := lineListLineCount gnomonDrawCount

/-- The cube index buffer size expression
(data.indices.size() * sizeof(uint16_t) + 3) & ~3 on 64-bit size_t
(main.cpp line 230). -/
def indexBufferSize (s : ℕ) : ℕ := ((s + 3) % 2 ^ 64) &&& (2 ^ 64 - 4)

/-- The byte size of the cube's index data: 36 uint16 indices. -/
def cubeIndexByteSize : ℕ := cubeIndices.length * 2

/-- Buffers written during construction of Application, in order: gnomon
vertex data (line 175), cube vertex data (line 292), cube index data
(line 293), the camera uniform (line 414). -/
def startupWrites : List BufferId :=
  [BufferId.gnomonVertex, BufferId.cubeVertex, BufferId.cubeIndex, BufferId.camera]

/-- The mouse-drag bookkeeping state (main.cpp lines 314-317). -/
@[ext]
structure DragState where
  isDown : Bool
  downPos : Vec2
  delta : Vec2
deriving DecidableEq

/-- The drag-state update of the input-processing section (main.cpp lines
497-515): on a button edge, downPos is captured (down edge) or reset to
(-1,-1) (up edge); then isDown is latched and delta is the offset from
downPos while down, (0,0) otherwise. -/
def dragStep (s : DragState) (mouseDown : Bool) (mousePos : Vec2) : DragState :=
  let downPos1 :=
    if s.isDown ≠ mouseDown then
      (if s.isDown = false then mousePos else ⟨-1, -1⟩)
    else s.downPos
  let isDown1 := mouseDown
  let delta1 : Vec2 :=
    if isDown1 then ⟨mousePos.x - downPos1.x, mousePos.y - downPos1.y⟩ else ⟨0, 0⟩
  ⟨isDown1, downPos1, delta1⟩

/-- Full per-frame application state (main.cpp lines 314-321). -/
structure AppState where
  drag : DragState
  phi : ℝ
  theta : ℝ

/-- The initial application state (main.cpp lines 315-320): mouse up,
downPos (-1,-1), delta (0,0), phi = 0, theta = pi/2. -/
noncomputable def initState : AppState :=
  ⟨⟨false, ⟨-1, -1⟩, ⟨0, 0⟩⟩, 0, Real.pi / 2⟩

/-- Per-frame external input: mouse button state and position, and the
slider interaction (none when the user does not move a slider, some v when
the user drags it toward value v). -/
structure FrameInput where
  mouseDown : Bool
  mousePos : Vec2
  phiSlider : Option ℝ
  thetaSlider : Option ℝ

/-- What a frame hands to the external renderer: the model matrix uniform,
and the list of buffers the frame writes. -/
structure FrameOutput where
  modelMatrix : Mat4
  writes : List BufferId

/-- An ImGui slider holds its value inside [lo, hi]: interaction clamps the
requested value into the closed range (ImGui::SliderFloat semantics,
main.cpp lines 521-522). -/
noncomputable def clampSlider (lo hi v : ℝ) : ℝ := max lo (min v hi)

/-- One frame of Application::render (main.cpp lines 430-548) as a state
transition: first the model matrix is derived from the phi/theta held at
frame entry (lines 431-437), then the drag bookkeeping runs (lines
497-515), then the sliders may update phi and theta within their ranges
(lines 521-522).  The only buffer render writes is the model uniform
(line 437). -/
noncomputable def render (s : AppState) (i : FrameInput) : AppState × FrameOutput :=
  let m := rotation (betweenZ (sph2cart s.phi s.theta 1))
  let drag1 := dragStep s.drag i.mouseDown i.mousePos
  let phi1 := match i.phiSlider with
    | none => s.phi
    | some v => clampSlider 0 (2 * Real.pi) v
  let theta1 := match i.thetaSlider with
    | none => s.theta
    | some v => clampSlider (-(Real.pi / 2)) (Real.pi / 2) v
  (⟨drag1, phi1, theta1⟩, ⟨m, [BufferId.model]⟩)

/-- Run a sequence of frames from a starting state. -/
noncomputable def runFrames (s : AppState) (l : List FrameInput) : AppState :=
  l.foldl (fun s i => (render s i).1) s

/-- Reference tracker for the most recent down edge: folds over the inputs
carrying (was the button down, position captured at the most recent down
edge).  A down edge is a frame whose button is down while the previous
frame's was not. -/
def downEdgeTrack (t : Bool × Option Vec2) (i : FrameInput) : Bool × Option Vec2 :=
  (i.mouseDown,
   if i.mouseDown then (if t.1 then t.2 else some i.mousePos) else none)

/-- The (button down, most recent down edge position) after a list of
inputs, starting from button up. -/
def downEdgeState (l : List FrameInput) : Bool × Option Vec2 :=
  l.foldl downEdgeTrack (false, none)

/-- Modelled from the spec: the CameraObject of the Camera Model — position,
orientation quaternion, and up vector (spec section 3); the Camera Model
belongs to the orbit demo variant, which is not among the sources. -/
@[ext]
structure Camera where
  position : Vec3
  rotation : Quat
  up : Vec3

/-- Modelled from the spec: PerspectiveParams { fov, aspect, near, far }
(spec section 3). -/
structure PerspectiveParams where
  fov : ℝ
  aspect : ℝ
  near : ℝ
  far : ℝ

/-- Modelled from the spec: projectionMatrix() of the Camera Model, derived
from perspective using the stored params on every call, with no cached
matrix (spec section 4.2); the Camera Model is not among the sources. -/
noncomputable def projectionMatrix (p : PerspectiveParams) : Mat4 :=
  perspective p.fov p.aspect p.near p.far

/-- Replace the stored aspect ratio, as a window resize does
(spec section 4.2). -/
def setAspect (p : PerspectiveParams) (a : ℝ) : PerspectiveParams :=
  { p with aspect := a }

/-- Modelled from the spec: OrbitState { pivot, startOrientation,
isDragging, dragStartPointer } (spec section 3); the Orbit Control belongs
to the orbit demo variant, which is not among the sources. -/
structure OrbitState where
  pivot : Vec3
  startOrientation : Quat
  isDragging : Bool
  dragStartPointer : ℝ × ℝ

/-- Modelled from the spec: the quaternion of the rotation by angle a about
the given unit axis, used to map drag deltas to incremental rotations. -/
noncomputable def axisAngle (axis : Vec3) (a : ℝ) : Quat :=
  ⟨Real.cos (a / 2), Real.sin (a / 2) * axis.x, Real.sin (a / 2) * axis.y,
   Real.sin (a / 2) * axis.z⟩

/-- The world up direction used by the orbit control. -/
def worldUp : Vec3 := ⟨0, 1, 0⟩

/-- Modelled from the spec: the camera-local right axis — the camera
orientation applied to the x basis vector (spec section 4.3). -/
noncomputable def localRight (c : Camera) : Vec3 :=
  (toMatrix c.rotation).applyPoint ⟨1, 0, 0⟩

namespace Orbit

/-- Modelled from the spec: the incremental rotation an update derives from
the pointer delta — delta.x rotates about world up, delta.y rotates about
the camera-local right axis (spec section 4.3). -/
noncomputable def incrRotation (o : OrbitState) (c : Camera) (p : ℝ × ℝ) : Quat :=
  Quat.mul (axisAngle (localRight c) (p.2 - o.dragStartPointer.2))
    (axisAngle worldUp (p.1 - o.dragStartPointer.1))

/-- Modelled from the spec: Orbit Control begin(pointer) — Idle to Dragging,
capturing dragStartPointer and snapshotting startOrientation
(spec section 4.3). -/
def begin (p : ℝ × ℝ) (c : Camera) (o : OrbitState) : OrbitState :=
  { pivot := o.pivot, startOrientation := c.rotation, isDragging := true,
    dragStartPointer := p }

/-- Modelled from the spec: Orbit Control update(pointer, pivot) — a no-op
when Idle; while Dragging, composes the incremental rotation with the
drag-start orientation (incremental times start) into camera.rotation and
repositions the camera by rotating position - pivot by the incremental
rotation and adding pivot back (spec section 4.3). -/
noncomputable def update (o : OrbitState) (c : Camera) (p : ℝ × ℝ) (pivot : Vec3) :
    Camera :=
  if o.isDragging then
    let delta : ℝ × ℝ := (p.1 - o.dragStartPointer.1, p.2 - o.dragStartPointer.2)
    let incr := Quat.mul (axisAngle (localRight c) delta.2) (axisAngle worldUp delta.1)
    { position := Vec3.add ((toMatrix incr).applyPoint (Vec3.sub c.position pivot)) pivot,
      rotation := Quat.mul incr o.startOrientation,
      up := c.up }
  else c

end Orbit

/-! ## Helper lemmas -/

theorem land_mask (n : ℕ) (h : n < 2 ^ 64) :
    n &&& (2 ^ 64 - 4) = 4 * (n / 4) := by
  apply Nat.eq_of_testBit_eq
  intro i
  have hmask : (2 ^ 64 - 4 : ℕ) = (2 ^ 62 - 1) <<< 2 := by
    rw [Nat.shiftLeft_eq]
    norm_num
  have hrhs : 4 * (n / 4) = (n >>> 2) <<< 2 := by
    rw [Nat.shiftLeft_eq, Nat.shiftRight_eq_div_pow]
    norm_num
    ring
  rw [Nat.testBit_land, hmask, hrhs, Nat.testBit_shiftLeft, Nat.testBit_shiftLeft,
    Nat.testBit_shiftRight, Nat.testBit_two_pow_sub_one]
  rcases Nat.lt_or_ge i 2 with h2 | h2
  · have : ¬ (i ≥ 2) := by omega
    simp [this]
  · rcases Nat.lt_or_ge i 64 with h64 | h64
    · have e1 : i ≥ 2 := h2
      have e2 : i - 2 < 62 := by omega
      have e3 : 2 + (i - 2) = i := by omega
      simp [e1, e2, e3]
    · have e2 : ¬ (i - 2 < 62) := by omega
      have e3 : n.testBit (2 + (i - 2)) = false := by
        apply Nat.testBit_lt_two_pow
        calc n < 2 ^ 64 := h
          _ ≤ 2 ^ (2 + (i - 2)) := Nat.pow_le_pow_right (by norm_num) (by omega)
      simp [e2, e3]

/-! ## Claim theorems -/

/-- Claim C1: every frame of the slider-driven variant hands the external
renderer the model matrix obtained as the rotation matrix of the quaternion
rotating the canonical forward axis Z onto
sphericalToCartesian(phi, theta, 1), for the slider-held phi and theta
current at the frame. -/
theorem claim_c1 (s : AppState) (i : FrameInput) :
    (render s i).2.modelMatrix =
      toMatrix (rotationBetween ⟨0, 0, 1⟩ (sphericalToCartesian s.phi s.theta 1)) :=
  rfl

/-- Claim C3: projectionMatrix is rederived from the perspective function
and the stored parameters on every call, with no cached state, so a changed
aspect ratio is reflected in the matrix produced for the next frame. -/
theorem claim_c3 (p : PerspectiveParams) (a : ℝ) :
    projectionMatrix p = perspective p.fov p.aspect p.near p.far ∧
    projectionMatrix (setAspect p a) = perspective p.fov a p.near p.far :=
  ⟨rfl, rfl⟩

/-- Claim C5 is false as stated: the gnomon draw call submits 6 vertices
with line-list topology, which form 3 line primitives, not 6. -/
theorem claim_c5_counterexample : ¬ (gnomonLineCount = 6) := by decide

set_option maxRecDepth 4000 in
/-- Claim C5 (amended): the renderer receives exactly two static
geometries, established at startup and never written afterwards — a gnomon
of 6 vertices forming 3 lines, and a cube with 24 vertices and 36 indices;
the only buffer a frame writes is the model uniform. -/
theorem claim_c5_amended :
    gnomonLineCount = 3 ∧
    gnomonVertices.length = 6 * floatsPerVertex ∧
    cubeVertices.length = 24 * floatsPerVertex ∧
    cubeIndices.length = 36 ∧
    BufferId.gnomonVertex ∈ startupWrites ∧
    BufferId.cubeVertex ∈ startupWrites ∧
    BufferId.cubeIndex ∈ startupWrites ∧
    ∀ (s : AppState) (i : FrameInput), (render s i).2.writes = [BufferId.model] := by
  refine ⟨rfl, rfl, rfl, rfl, ?_, ?_, ?_, fun s i => rfl⟩
  · simp [startupWrites]
  · simp [startupWrites]
  · simp [startupWrites]

/-- Claim C10: for byte sizes representable without 64-bit overflow, the
index-buffer size expression (s + 3) and-not 3 is the smallest multiple of
4 that is at least s; for the cube's 72 bytes of indices it is 72. -/
theorem claim_c10 :
    (∀ s : ℕ, s + 3 < 2 ^ 64 →
      4 ∣ indexBufferSize s ∧ s ≤ indexBufferSize s ∧
      ∀ m : ℕ, 4 ∣ m → s ≤ m → indexBufferSize s ≤ m) ∧
    indexBufferSize cubeIndexByteSize = 72 := by
  have hsize : ∀ s : ℕ, s + 3 < 2 ^ 64 → indexBufferSize s = 4 * ((s + 3) / 4) := by
    intro s hs
    unfold indexBufferSize
    rw [Nat.mod_eq_of_lt hs, land_mask _ hs]
  constructor
  · intro s hs
    rw [hsize s hs]
    refine ⟨⟨(s + 3) / 4, rfl⟩, by omega, fun m hm hsm => by omega⟩
  · have h72 : cubeIndexByteSize = 72 := rfl
    rw [h72, hsize 72 (by norm_num)]

/-- Witness for claim C10 at the cube's concrete size of 72 bytes. -/
theorem claim_c10_witness :
    4 ∣ indexBufferSize 72 ∧ 72 ≤ indexBufferSize 72 ∧
    ∀ m : ℕ, 4 ∣ m → 72 ≤ m → indexBufferSize 72 ≤ m :=
  claim_c10.1 72 (by norm_num)

/-- Claim C8 is false as stated: the phi slider's range is the closed
interval up to 2 pi inclusive, so dragging it to its maximum reaches
phi = 2 pi, which is outside [0, 2 pi). -/
theorem claim_c8_counterexample :
    (runFrames initState [⟨false, ⟨0, 0⟩, some (2 * Real.pi), none⟩]).phi = 2 * Real.pi ∧
    ¬ ((runFrames initState [⟨false, ⟨0, 0⟩, some (2 * Real.pi), none⟩]).phi
        < 2 * Real.pi) := by
  have h : (runFrames initState [⟨false, ⟨0, 0⟩, some (2 * Real.pi), none⟩]).phi
      = 2 * Real.pi := by
    show clampSlider 0 (2 * Real.pi) (2 * Real.pi) = 2 * Real.pi
    unfold clampSlider
    rw [min_self, max_eq_right (by positivity)]
  exact ⟨h, by rw [h]; exact lt_irrefl _⟩

/-- Claim C8 (amended): at every reachable state, including the initial
(phi = 0, theta = pi/2), the spherical direction satisfies phi in the
closed interval [0, 2 pi] and theta in [-pi/2, pi/2]. -/
theorem claim_c8_amended (l : List FrameInput) :
    0 ≤ (runFrames initState l).phi ∧ (runFrames initState l).phi ≤ 2 * Real.pi ∧
    -(Real.pi / 2) ≤ (runFrames initState l).theta ∧
    (runFrames initState l).theta ≤ Real.pi / 2 := by
  have step : ∀ (s : AppState) (i : FrameInput),
      (0 ≤ s.phi ∧ s.phi ≤ 2 * Real.pi ∧
        -(Real.pi / 2) ≤ s.theta ∧ s.theta ≤ Real.pi / 2) →
      (0 ≤ ((render s i).1).phi ∧ ((render s i).1).phi ≤ 2 * Real.pi ∧
        -(Real.pi / 2) ≤ ((render s i).1).theta ∧
        ((render s i).1).theta ≤ Real.pi / 2) := by
    intro s i hs
    obtain ⟨h1, h2, h3, h4⟩ := hs
    obtain ⟨md, mp, ps, ts⟩ := i
    cases ps <;> cases ts <;>
      refine ⟨?_, ?_, ?_, ?_⟩ <;>
      simp only [render, clampSlider] <;>
      first
        | assumption
        | exact le_max_left _ _
        | exact max_le (by positivity) (min_le_right _ _)
        | exact max_le (by linarith [Real.pi_pos]) (min_le_right _ _)
  have runp : ∀ (t : List FrameInput) (s : AppState),
      (0 ≤ s.phi ∧ s.phi ≤ 2 * Real.pi ∧
        -(Real.pi / 2) ≤ s.theta ∧ s.theta ≤ Real.pi / 2) →
      (0 ≤ (runFrames s t).phi ∧ (runFrames s t).phi ≤ 2 * Real.pi ∧
        -(Real.pi / 2) ≤ (runFrames s t).theta ∧
        (runFrames s t).theta ≤ Real.pi / 2) := by
    intro t
    induction t with
    | nil => intro s hs; exact hs
    | cons i rest ih => intro s hs; exact ih _ (step s i hs)
  have hph : initState.phi = 0 := rfl
  have hth : initState.theta = Real.pi / 2 := rfl
  exact runp l initState
    ⟨by simp [hph], by rw [hph]; positivity, by rw [hth]; linarith [Real.pi_pos],
      by simp [hth]⟩

/-- One step of the drag bookkeeping preserves the correspondence with the
reference down-edge tracker. -/
theorem dragStep_inv (d : DragState) (t : Bool × Option Vec2) (i : FrameInput)
    (h1 : d.isDown = t.1) (h2 : t.1 = false → d.downPos = ⟨-1, -1⟩)
    (h3 : t.1 = true → t.2 = some d.downPos) :
    (dragStep d i.mouseDown i.mousePos).isDown = (downEdgeTrack t i).1 ∧
    ((downEdgeTrack t i).1 = false →
      (dragStep d i.mouseDown i.mousePos).downPos = ⟨-1, -1⟩) ∧
    ((downEdgeTrack t i).1 = true →
      (downEdgeTrack t i).2 = some (dragStep d i.mouseDown i.mousePos).downPos) := by
  obtain ⟨t1, t2⟩ := t
  simp only at h1 h2 h3
  subst h1
  cases hb : i.mouseDown <;> cases hd : d.isDown <;>
    simp_all [dragStep, downEdgeTrack]

/-- Running any input sequence keeps the drag state in correspondence with
the reference down-edge tracker. -/
theorem drag_inv (l : List FrameInput) :
    ∀ (s : AppState) (t : Bool × Option Vec2),
      (s.drag.isDown = t.1 ∧ (t.1 = false → s.drag.downPos = ⟨-1, -1⟩) ∧
        (t.1 = true → t.2 = some s.drag.downPos)) →
      ((runFrames s l).drag.isDown = (l.foldl downEdgeTrack t).1 ∧
        ((l.foldl downEdgeTrack t).1 = false →
          (runFrames s l).drag.downPos = ⟨-1, -1⟩) ∧
        ((l.foldl downEdgeTrack t).1 = true →
          (l.foldl downEdgeTrack t).2 = some (runFrames s l).drag.downPos)) := by
  induction l with
  | nil => intro s t h; exact h
  | cons i rest ih =>
    intro s t h
    exact ih ((render s i).1) (downEdgeTrack t i)
      (dragStep_inv s.drag t i h.1 h.2.1 h.2.2)

/-- Claim C9: after the input-processing section of every frame, the drag
state satisfies — button up implies delta = (0,0) and downPos = (-1,-1);
button down implies downPos is the mouse position captured at the most
recent down edge and delta is the current mouse position minus it. -/
theorem claim_c9 (l : List FrameInput) (i : FrameInput) :
    ((runFrames initState (l ++ [i])).drag.isDown = i.mouseDown) ∧
    (i.mouseDown = false →
      (runFrames initState (l ++ [i])).drag.delta = ⟨0, 0⟩ ∧
      (runFrames initState (l ++ [i])).drag.downPos = ⟨-1, -1⟩) ∧
    (i.mouseDown = true →
      (downEdgeState (l ++ [i])).2
        = some (runFrames initState (l ++ [i])).drag.downPos ∧
      (runFrames initState (l ++ [i])).drag.delta =
        ⟨i.mousePos.x - (runFrames initState (l ++ [i])).drag.downPos.x,
         i.mousePos.y - (runFrames initState (l ++ [i])).drag.downPos.y⟩) := by
  have hrun : runFrames initState (l ++ [i]) = (render (runFrames initState l) i).1 := by
    simp [runFrames, List.foldl_append]
  have hedge : downEdgeState (l ++ [i]) = downEdgeTrack (downEdgeState l) i := by
    simp [downEdgeState, List.foldl_append]
  have hinv := drag_inv l initState (false, none)
    ⟨rfl, fun _ => rfl, fun h => by simp at h⟩
  have hstep := dragStep_inv (runFrames initState l).drag (downEdgeState l) i
    hinv.1 hinv.2.1 hinv.2.2
  rw [hrun, hedge]
  have hdrag : ((render (runFrames initState l) i).1).drag
      = dragStep (runFrames initState l).drag i.mouseDown i.mousePos := rfl
  rw [hdrag]
  have htrack1 : (downEdgeTrack (downEdgeState l) i).1 = i.mouseDown := rfl
  refine ⟨by rw [htrack1] at hstep; exact hstep.1, ?_, ?_⟩
  · intro hup
    refine ⟨?_, hstep.2.1 (by rw [htrack1, hup])⟩
    simp [dragStep, hup]
  · intro hdown
    refine ⟨hstep.2.2 (by rw [htrack1, hdown]), ?_⟩
    simp [dragStep, hdown]

/-- Witness for claim C9 on a concrete single-frame run with the button
down. -/
theorem claim_c9_witness :
    ((runFrames initState ([] ++ [⟨true, ⟨3, 4⟩, none, none⟩])).drag.isDown = true) ∧
    ((true : Bool) = false →
      (runFrames initState ([] ++ [⟨true, ⟨3, 4⟩, none, none⟩])).drag.delta = ⟨0, 0⟩ ∧
      (runFrames initState ([] ++ [⟨true, ⟨3, 4⟩, none, none⟩])).drag.downPos
        = ⟨-1, -1⟩) ∧
    ((true : Bool) = true →
      (downEdgeState ([] ++ [⟨true, ⟨3, 4⟩, none, none⟩])).2
        = some (runFrames initState ([] ++ [⟨true, ⟨3, 4⟩, none, none⟩])).drag.downPos ∧
      (runFrames initState ([] ++ [⟨true, ⟨3, 4⟩, none, none⟩])).drag.delta =
        ⟨(3 : ℚ)
            - (runFrames initState ([] ++ [⟨true, ⟨3, 4⟩, none, none⟩])).drag.downPos.x,
         (4 : ℚ)
            - (runFrames initState ([] ++ [⟨true, ⟨3, 4⟩, none, none⟩])).drag.downPos.y⟩) :=
  claim_c9 [] ⟨true, ⟨3, 4⟩, none, none⟩

/-- Claim C7: an orbit drag begin followed by an update with zero pointer
delta leaves the camera (rotation and position) exactly as before the
drag. -/
theorem claim_c7 (c : Camera) (o : OrbitState) (p : ℝ × ℝ) (piv : Vec3) :
    Orbit.update (Orbit.begin p c o) c p piv = c := by
  obtain ⟨cp, cr, cu⟩ := c
  simp only [Orbit.update, Orbit.begin, sub_self, if_true]
  norm_num [axisAngle, worldUp, Quat.mul, toMatrix, Quat.normSq, Mat4.applyPoint,
    Vec3.add, Vec3.sub, Camera.mk.injEq, Quat.mk.injEq, Vec3.mk.injEq]

/-- Claim C2: while the orbit state is Dragging, an update writes
incremental-rotation-times-start-orientation into camera.rotation and
repositions the camera by rotating position minus pivot by the same
incremental rotation and adding the pivot back. -/
theorem claim_c2 (o : OrbitState) (c : Camera) (p : ℝ × ℝ) (piv : Vec3)
    (h : o.isDragging = true) :
    (Orbit.update o c p piv).rotation =
      Quat.mul (Orbit.incrRotation o c p) o.startOrientation ∧
    (Orbit.update o c p piv).position =
      Vec3.add ((toMatrix (Orbit.incrRotation o c p)).applyPoint
        (Vec3.sub c.position piv)) piv := by
  simp [Orbit.update, Orbit.incrRotation, h]

/-- Witness for claim C2 on a concrete dragging orbit state and camera. -/
theorem claim_c2_witness :
    ((⟨⟨0, 0, 0⟩, Quat.one, true, (0, 0)⟩ : OrbitState).isDragging = true) ∧
    ((Orbit.update ⟨⟨0, 0, 0⟩, Quat.one, true, (0, 0)⟩
        ⟨⟨0, 0, 5⟩, Quat.one, ⟨0, 1, 0⟩⟩ (1, 2) ⟨0, 0, 0⟩).rotation =
      Quat.mul (Orbit.incrRotation ⟨⟨0, 0, 0⟩, Quat.one, true, (0, 0)⟩
        ⟨⟨0, 0, 5⟩, Quat.one, ⟨0, 1, 0⟩⟩ (1, 2)) Quat.one ∧
    (Orbit.update ⟨⟨0, 0, 0⟩, Quat.one, true, (0, 0)⟩
        ⟨⟨0, 0, 5⟩, Quat.one, ⟨0, 1, 0⟩⟩ (1, 2) ⟨0, 0, 0⟩).position =
      Vec3.add ((toMatrix (Orbit.incrRotation ⟨⟨0, 0, 0⟩, Quat.one, true, (0, 0)⟩
        ⟨⟨0, 0, 5⟩, Quat.one, ⟨0, 1, 0⟩⟩ (1, 2))).applyPoint
        (Vec3.sub ⟨0, 0, 5⟩ ⟨0, 0, 0⟩)) ⟨0, 0, 0⟩) :=
  ⟨rfl, claim_c2 ⟨⟨0, 0, 0⟩, Quat.one, true, (0, 0)⟩
    ⟨⟨0, 0, 5⟩, Quat.one, ⟨0, 1, 0⟩⟩ (1, 2) ⟨0, 0, 0⟩ rfl⟩

/-- Claim C4: under the startup configuration — eye (0,0,5), target toward
the origin, up (0,1,0), fov 45 degrees, aspect 16/9, near 0.1, far 100
(main.cpp lines 410-412 and the 1280x720 context of line 304) — the view
matrix maps the world origin to view-space (0,0,-5), i.e. depth 5 along the
view axis, and the projection matrix is non-singular. -/
theorem claim_c4 :
    (lookAt ⟨0, 0, 5⟩ ⟨0, 0, -1⟩ ⟨0, 1, 0⟩).applyPoint ⟨0, 0, 0⟩ = ⟨0, 0, -5⟩ ∧
    ((perspective (radians 45) (16 / 9) (1 / 10) 100).toMatrix4).det ≠ 0 := by
  constructor
  · have h36 : Real.sqrt 36 = 6 := by
      rw [show (36 : ℝ) = 6 ^ 2 by norm_num]
      exact Real.sqrt_sq (by norm_num)
    have hf : Vec3.normalize (Vec3.sub ⟨0, 0, -1⟩ ⟨0, 0, 5⟩) = ⟨0, 0, -1⟩ := by
      unfold Vec3.normalize Vec3.sub Vec3.normSq Vec3.smul
      norm_num [Vec3.mk.injEq, h36]
    have hs : Vec3.normalize (Vec3.cross ⟨0, 0, -1⟩ ⟨0, 1, 0⟩) = ⟨1, 0, 0⟩ := by
      unfold Vec3.normalize Vec3.cross Vec3.normSq Vec3.smul
      norm_num [Vec3.mk.injEq, Real.sqrt_one]
    simp only [lookAt]
    rw [hf, hs]
    norm_num [Mat4.applyPoint, Vec3.cross, Vec3.dot, Vec3.mk.injEq]
  · have harg : radians 45 / 2 = Real.pi / 8 := by
      unfold radians
      ring
    have ht : 0 < Real.tan (Real.pi / 8) :=
      Real.tan_pos_of_pos_of_lt_pi_div_two (by positivity) (by linarith [Real.pi_pos])
    have ht' : Real.tan (Real.pi / 8) ≠ 0 := ne_of_gt ht
    simp only [perspective, Mat4.toMatrix4, harg]
    simp [Matrix.det_succ_row_zero, Fin.sum_univ_succ]
    exact ⟨ht', by norm_num⟩

theorem Quat.normSq_nonneg (q : Quat) : 0 ≤ q.normSq := by
  unfold Quat.normSq
  nlinarith [mul_self_nonneg q.w, mul_self_nonneg q.x, mul_self_nonneg q.y,
    mul_self_nonneg q.z]

/-- The rotation matrix of a nonzero scalar multiple of a quaternion equals
the rotation matrix of the quaternion itself: the entries are quadratic
forms divided by the squared norm. -/
theorem toMatrix_smul (c : ℝ) (q : Quat) (hc : c ≠ 0) (hn : q.normSq ≠ 0) :
    toMatrix (Quat.smul c q) = toMatrix q := by
  have hd : Quat.normSq ⟨c * q.w, c * q.x, c * q.y, c * q.z⟩ = c ^ 2 * q.normSq := by
    unfold Quat.normSq
    ring
  have hdne : Quat.normSq ⟨c * q.w, c * q.x, c * q.y, c * q.z⟩ ≠ 0 := by
    rw [hd]
    exact mul_ne_zero (pow_ne_zero 2 hc) hn
  ext <;> simp only [toMatrix, Quat.smul] <;>
    first
      | rfl
      | (rw [div_eq_div_iff hdne hn, hd]; unfold Quat.normSq; ring)

/-- Defensive normalization before the matrix conversion does not change
the resulting rotation matrix. -/
theorem toMatrix_normalize (q : Quat) (hn : q.normSq ≠ 0) :
    toMatrix (Quat.normalize q) = toMatrix q := by
  have hpos : 0 < q.normSq := lt_of_le_of_ne (Quat.normSq_nonneg q) (Ne.symm hn)
  have hs : Real.sqrt q.normSq ≠ 0 := ne_of_gt (Real.sqrt_pos.mpr hpos)
  unfold Quat.normalize
  exact toMatrix_smul _ q (one_div_ne_zero hs) hn

/-- Lagrange identity for the cross product. -/
theorem cross_normSq (v w : Vec3) :
    (v.cross w).normSq = v.normSq * w.normSq - v.dot w * v.dot w := by
  unfold Vec3.cross Vec3.normSq Vec3.dot
  dsimp only
  ring

/-- The deterministic orthogonal pick is orthogonal to its argument. -/
theorem orthogonalTo_dot (v : Vec3) : (orthogonalTo v).dot v = 0 := by
  unfold orthogonalTo
  split_ifs <;> (unfold Vec3.dot; dsimp only; ring)

/-- The deterministic orthogonal pick of a unit vector is nonzero. -/
theorem orthogonalTo_normSq_ne (v : Vec3) (hv : v.normSq = 1) :
    (orthogonalTo v).normSq ≠ 0 := by
  unfold orthogonalTo
  split_ifs with h1 h2
  · intro h0
    simp only [Vec3.normSq] at h0
    have hz : v.z = 0 := mul_self_eq_zero.mp (by nlinarith [mul_self_nonneg v.y])
    have hy : v.y = 0 := mul_self_eq_zero.mp (by nlinarith [mul_self_nonneg v.z])
    have hx : v.x = 0 := by
      have hle : |v.x| ≤ 0 := by
        calc |v.x| ≤ |v.y| := h1.1
          _ = 0 := by rw [hy, abs_zero]
      exact abs_nonpos_iff.mp hle
    unfold Vec3.normSq at hv
    rw [hx, hy, hz] at hv
    norm_num at hv
  · intro h0
    simp only [Vec3.normSq] at h0
    have hz : v.z = 0 := mul_self_eq_zero.mp (by nlinarith [mul_self_nonneg v.x])
    have hx : v.x = 0 := mul_self_eq_zero.mp (by nlinarith [mul_self_nonneg v.z])
    have hy : v.y = 0 := by
      have hle : |v.y| ≤ 0 := by
        calc |v.y| ≤ |v.z| := h2
          _ = 0 := by rw [hz, abs_zero]
      exact abs_nonpos_iff.mp hle
    unfold Vec3.normSq at hv
    rw [hx, hy, hz] at hv
    norm_num at hv
  · intro h0
    simp only [Vec3.normSq] at h0
    have hy : v.y = 0 := mul_self_eq_zero.mp (by nlinarith [mul_self_nonneg v.x])
    exact h2 (by rw [hy, abs_zero]; exact abs_nonneg v.z)

/-- For unit vectors, dot product -1 forces anti-parallelism. -/
theorem antiparallel_of (v w : Vec3) (hv : v.normSq = 1) (hw : w.normSq = 1)
    (hd : v.dot w = -1) : w = Vec3.neg v := by
  unfold Vec3.normSq at hv hw
  unfold Vec3.dot at hd
  have hsum : (v.x + w.x) * (v.x + w.x) + (v.y + w.y) * (v.y + w.y)
      + (v.z + w.z) * (v.z + w.z) = 0 := by linear_combination hv + hw + 2 * hd
  have hx : v.x + w.x = 0 := mul_self_eq_zero.mp
    (by nlinarith [mul_self_nonneg (v.y + w.y), mul_self_nonneg (v.z + w.z)])
  have hy : v.y + w.y = 0 := mul_self_eq_zero.mp
    (by nlinarith [mul_self_nonneg (v.x + w.x), mul_self_nonneg (v.z + w.z)])
  have hz : v.z + w.z = 0 := mul_self_eq_zero.mp
    (by nlinarith [mul_self_nonneg (v.x + w.x), mul_self_nonneg (v.y + w.y)])
  unfold Vec3.neg
  ext <;> dsimp only <;> linarith

/-- On unit vectors with non-antiparallel directions, the shortest-arc
quaternion built from 1 + dot and the cross product rotates the source onto
the target. -/
theorem rotApply_general (v w : Vec3) (hv : v.normSq = 1) (hw : w.normSq = 1)
    (hd : v.dot w ≠ -1) :
    (toMatrix (Quat.normalize
      ⟨1 + v.dot w, (v.cross w).x, (v.cross w).y, (v.cross w).z⟩)).applyPoint v
      = w := by
  have hquad : Quat.normSq ⟨1 + v.dot w, (v.cross w).x, (v.cross w).y, (v.cross w).z⟩
      = 2 * (1 + v.dot w) := by
    have hcr := cross_normSq v w
    rw [hv, hw] at hcr
    unfold Vec3.normSq at hcr
    unfold Quat.normSq
    dsimp only
    linear_combination hcr
  have hge : -1 ≤ v.dot w := by
    have hcr := cross_normSq v w
    rw [hv, hw] at hcr
    have hnn : 0 ≤ (v.cross w).normSq := by
      unfold Vec3.normSq
      nlinarith [mul_self_nonneg (v.cross w).x, mul_self_nonneg (v.cross w).y,
        mul_self_nonneg (v.cross w).z]
    nlinarith [hcr, hnn]
  have hpos : 0 < 1 + v.dot w := by
    have hlt : -1 < v.dot w := lt_of_le_of_ne hge (Ne.symm hd)
    linarith
  have hn2 : (2 : ℝ) * (1 + v.dot w) ≠ 0 := ne_of_gt (by linarith)
  have hnq : Quat.normSq ⟨1 + v.dot w, (v.cross w).x, (v.cross w).y, (v.cross w).z⟩
      ≠ 0 := by
    rw [hquad]
    exact hn2
  rw [toMatrix_normalize _ hnq]
  unfold toMatrix Mat4.applyPoint
  dsimp only
  rw [hquad]
  unfold Vec3.normSq at hv hw
  refine Vec3.ext ?_ ?_ ?_
  · dsimp only
    rw [div_mul_eq_mul_div, div_mul_eq_mul_div, div_mul_eq_mul_div, add_zero,
      div_add_div_same, div_add_div_same, div_eq_iff hn2]
    unfold Vec3.dot Vec3.cross
    dsimp only
    linear_combination
      (2 * (1 + (v.x * w.x + v.y * w.y + v.z * w.z)) * w.x
        - (w.x * w.x + w.y * w.y + w.z * w.z) * v.x) * hv + (-v.x) * hw
  · dsimp only
    rw [div_mul_eq_mul_div, div_mul_eq_mul_div, div_mul_eq_mul_div, add_zero,
      div_add_div_same, div_add_div_same, div_eq_iff hn2]
    unfold Vec3.dot Vec3.cross
    dsimp only
    linear_combination
      (2 * (1 + (v.x * w.x + v.y * w.y + v.z * w.z)) * w.y
        - (w.x * w.x + w.y * w.y + w.z * w.z) * v.y) * hv + (-v.y) * hw
  · dsimp only
    rw [div_mul_eq_mul_div, div_mul_eq_mul_div, div_mul_eq_mul_div, add_zero,
      div_add_div_same, div_add_div_same, div_eq_iff hn2]
    unfold Vec3.dot Vec3.cross
    dsimp only
    linear_combination
      (2 * (1 + (v.x * w.x + v.y * w.y + v.z * w.z)) * w.z
        - (w.x * w.x + w.y * w.y + w.z * w.z) * v.z) * hv + (-v.z) * hw

/-- On a unit vector, the anti-parallel branch of rotationBetween rotates v
onto -v (no degenerate axis, no undefined result). -/
theorem rotApply_antiparallel (v : Vec3) (hv : v.normSq = 1) :
    (toMatrix (rotationBetween v (Vec3.neg v))).applyPoint v = Vec3.neg v := by
  have hd : v.dot (Vec3.neg v) = -1 := by
    unfold Vec3.dot Vec3.neg
    unfold Vec3.normSq at hv
    dsimp only
    linear_combination -hv
  unfold rotationBetween
  rw [if_pos hd]
  have han : Quat.normSq ⟨0, (orthogonalTo v).x, (orthogonalTo v).y, (orthogonalTo v).z⟩
      = (orthogonalTo v).normSq := by
    unfold Quat.normSq Vec3.normSq
    dsimp only
    ring
  have hane := orthogonalTo_normSq_ne v hv
  rw [toMatrix_normalize _ (by rw [han]; exact hane)]
  have hdot := orthogonalTo_dot v
  unfold Vec3.dot at hdot
  have hane2 : (orthogonalTo v).x * (orthogonalTo v).x
      + (orthogonalTo v).y * (orthogonalTo v).y
      + (orthogonalTo v).z * (orthogonalTo v).z ≠ 0 := by
    have h := hane
    unfold Vec3.normSq at h
    exact h
  unfold toMatrix Mat4.applyPoint
  dsimp only
  rw [han]
  unfold Vec3.neg Vec3.normSq
  refine Vec3.ext ?_ ?_ ?_
  · dsimp only
    rw [div_mul_eq_mul_div, div_mul_eq_mul_div, div_mul_eq_mul_div, add_zero,
      div_add_div_same, div_add_div_same, div_eq_iff hane2]
    linear_combination (2 * (orthogonalTo v).x) * hdot
  · dsimp only
    rw [div_mul_eq_mul_div, div_mul_eq_mul_div, div_mul_eq_mul_div, add_zero,
      div_add_div_same, div_add_div_same, div_eq_iff hane2]
    linear_combination (2 * (orthogonalTo v).y) * hdot
  · dsimp only
    rw [div_mul_eq_mul_div, div_mul_eq_mul_div, div_mul_eq_mul_div, add_zero,
      div_add_div_same, div_add_div_same, div_eq_iff hane2]
    linear_combination (2 * (orthogonalTo v).z) * hdot

/-- Claim C6: for all unit vectors v and w, the matrix of the shortest-arc
rotation maps v exactly onto w — including the anti-parallel case w = -v,
where the deterministic orthogonal axis keeps the result well defined — and
rotationBetween of a unit vector with itself is the identity quaternion. -/
theorem claim_c6 (v w : Vec3) (hv : v.normSq = 1) (hw : w.normSq = 1) :
    (toMatrix (rotationBetween v w)).applyPoint v = w ∧
    rotationBetween v v = Quat.one := by
  constructor
  · by_cases hd : v.dot w = -1
    · have hwv : w = Vec3.neg v := antiparallel_of v w hv hw hd
      rw [hwv]
      exact rotApply_antiparallel v hv
    · unfold rotationBetween
      rw [if_neg hd]
      exact rotApply_general v w hv hw hd
  · have hd1 : v.dot v = 1 := hv
    have hcr : v.cross v = ⟨0, 0, 0⟩ := by
      unfold Vec3.cross
      refine Vec3.ext ?_ ?_ ?_ <;> (dsimp only; ring)
    unfold rotationBetween
    rw [if_neg (by rw [hd1]; norm_num), hd1, hcr]
    have h4 : Real.sqrt 4 = 2 := by
      rw [show (4 : ℝ) = 2 ^ 2 by norm_num]
      exact Real.sqrt_sq (by norm_num)
    unfold Quat.normalize Quat.smul Quat.normSq Quat.one
    dsimp only
    norm_num [h4, Quat.mk.injEq]

/-- Witness for claim C6 at the concrete anti-parallel pair (0,0,1) and
(0,0,-1). -/
theorem claim_c6_witness :
    Vec3.normSq ⟨0, 0, 1⟩ = 1 ∧ Vec3.normSq ⟨0, 0, -1⟩ = 1 ∧
    ((toMatrix (rotationBetween ⟨0, 0, 1⟩ ⟨0, 0, -1⟩)).applyPoint ⟨0, 0, 1⟩
        = ⟨0, 0, -1⟩ ∧
      rotationBetween ⟨0, 0, 1⟩ ⟨0, 0, 1⟩ = Quat.one) := by
  have h1 : Vec3.normSq ⟨0, 0, 1⟩ = 1 := by norm_num [Vec3.normSq]
  have h2 : Vec3.normSq ⟨0, 0, -1⟩ = 1 := by norm_num [Vec3.normSq]
  exact ⟨h1, h2, claim_c6 ⟨0, 0, 1⟩ ⟨0, 0, -1⟩ h1 h2⟩

end CubeDemo
